import Mathlib

/-!
# Verification of the envpool environment driver (`envpool/core/env.h`)

This file gives a shallow embedding of the per-environment driver class
`Env<EnvSpec>` from `envpool/core/env.h` and proves the specified properties of
its action-demultiplexing (`ParseAction`), stepping (`EnvStep`/`PreProcess`),
state publication (`Allocate`) and default abstract operations.

Modelling conventions:
* An `Arr` (the C++ `Array` primitive) is a typed n-dimensional buffer; we model
  it as its list of leading-dimension rows, each row a flat `List Int` of
  elements.  `Slice(start, end)` is `drop`/`take`, `operator[](i)` is row
  lookup, `Assign` is row replacement.
* The shared `ActionBatch` (`std::vector<Array>`) is a `List Arr`, one entry per
  declared action field.
* C++ machine ints are modelled as `Int` (values) and `Nat` (indices/sizes);
  none of the indices involved approach overflow in the modelled code paths.
* Out-of-bounds reads (undefined behaviour in C++) are modelled with `getD`
  defaults; all theorems about content carry in-bounds hypotheses.
-/

/-- One leading-dimension row of an `Array`: a flat list of its elements. -/
abbrev Row := List Int

/-- The C++ `Array` primitive, reduced to its list of leading-dimension rows.
Field `rows` is the leading dimension: `rows.length = Shape(0)`. -/
structure Arr where
  rows : List Row
  deriving Repr, DecidableEq

/-- The empty array, used as the `getD` default for (UB in C++) out-of-range
field access. -/
def Arr.empty : Arr := ⟨[]⟩

/-- The view `Array::Slice(start, end)`: zero-copy aliasing view of rows
`[start, end)`. -/
def sliceRows (a : Arr) (start stop : Nat) : List Row :=
  (a.rows.drop start).take (stop - start)

/-- The view `Array::operator[](i)`: the single row at index `i` (UB out of range,
modelled by the empty-row default). -/
def rowAt (a : Arr) (i : Nat) : Row :=
  a.rows.getD i []

/-- The per-row gather: `for j: arr[j].Assign(batchField[idx[j]])`, expressed as
the resulting content of the freshly-allocated `player_num`-row buffer. -/
def gatherRows (a : Arr) (idx : List Nat) : List Row :=
  idx.map (fun j => rowAt a j)

/-- One entry of `raw_action_`, tagged by the construction policy the code
used: `view` for a zero-copy `Slice`, `owned` for a freshly gathered buffer,
`row` for a single-row `operator[]` view (per-environment fields). -/
inductive RawEntry where
  | view (content : List Row)
  | owned (content : List Row)
  | row (r : Row)
  deriving Repr, DecidableEq

/-- A `ShapeSpec`: the shape of one declared field (a leading `-1` marks a
per-player field). Element type is irrelevant to the modelled logic. -/
structure ShapeSpec where
  shape : List Int
  deriving Repr, DecidableEq

/-- The slice of `EnvSpec` the driver consults: the `max_num_players` and
`seed` config entries and the ordered action field specs. -/
structure EnvSpec where
  maxNumPlayers : Int
  seed : Int
  actionSpecs : List ShapeSpec
  deriving Repr, DecidableEq

/-- Driver state: the fields of class `Env<EnvSpec>` that the modelled code
reads or writes.  `order_`/`env_index_` are uninitialized ints in C++ until
`EnvStep`/`SetAction` run; we model them as initialised to `0`.  The RNG
`gen_` and the queue pointer `sbq_` play no role in the verified logic.
`actionBatch = none` models the null `shared_ptr` before any `SetAction`. -/
structure Env where
  elapsedStep : Int
  order : Int
  envId : Int
  seed : Int
  envIndex : Nat
  isSinglePlayer : Bool
  isPlayerAction : List Bool
  actionBatch : Option (List Arr)
  rawAction : List RawEntry
  deriving Repr, DecidableEq

/-- The constructor `Env::Env(spec, env_id)`: `elapsed_step_(-1)`,
`is_single_player_(max_num_players == 1)`,
`is_player_action_[i] = (shape.size() > 0 && shape[0] == -1)`,
`seed_ = spec.seed + env_id`; the action-batch pointer starts null. -/
def mkEnv (spec : EnvSpec) (envId : Int) : Env :=
  { elapsedStep := -1
    order := 0
    envId := envId
    seed := spec.seed + envId
    envIndex := 0
    isSinglePlayer := spec.maxNumPlayers == 1
    isPlayerAction :=
      spec.actionSpecs.map
        (fun s => decide (0 < s.shape.length) && (s.shape.headD 0 == (-1 : Int)))
    actionBatch := none
    rawAction := [] }

/-- The call `Env::SetAction(action_batch, env_index)`: attach the round's shared batch
and this environment's batch-relative index. -/
def SetAction (e : Env) (batch : List Arr) (envIndex : Nat) : Env :=
  { e with actionBatch := some batch, envIndex := envIndex }

/-- Reading `player_env_id[i]` through the `int*` data pointer of the second
action field: field 1 has shape `(-1,)`, one scalar environment id per player
row, so linear element `i` is row `i`'s single element. -/
def playerIdAt (a : Arr) (i : Nat) : Int :=
  (a.rows.getD i []).headD 0

/-- The player-id scan of `ParseAction`'s multi-player path: all row indices
`i < Shape(0)` of the player-to-environment-id field whose stamped id equals
`env_id_`, in ascending (batch) order. -/
def envPlayerIndex (a : Arr) (envId : Int) : List Nat :=
  (List.range a.rows.length).filter (fun i => playerIdAt a i == envId)

/-- The contiguity test of `ParseAction`: with `player_num > 0`,
`start = idx[0]`, `end = idx[player_num - 1] + 1`, the fast path is chosen when
`player_num == end - start`; with `player_num == 0` it stays `false`. -/
def scanContinuous (idx : List Nat) : Bool :=
  if 0 < idx.length then
    (idx.length : Int) == ((idx.getLastD 0 : Int) + 1 - (idx.headD 0 : Int))
  else
    false

/-- The demux `Env::ParseAction()` (value semantics): the content of `raw_action_`
rebuilt from the attached batch.  Mirrors env.h lines 78-126: the
single-player path slices/indexes at `env_index_`; the multi-player path scans
field 1 for this environment's player rows, then per per-player field either
takes the zero-copy slice `[start, end)` (contiguous case) or gathers the
matched rows into a fresh `player_num`-row buffer; per-environment fields are
always the single row at `env_index_`.  (The C++ side-write
`action_specs_[i].shape[0] = player_num` only resizes the scratch shape used
to allocate the gather buffer; the buffer's content is what `owned` holds.) -/
def ParseAction (e : Env) (batch : List Arr) : List RawEntry :=
  if e.isSinglePlayer then
    (List.range batch.length).map (fun i =>
      if e.isPlayerAction.getD i false then
        .view (sliceRows (batch.getD i Arr.empty) e.envIndex (e.envIndex + 1))
      else
        .row (rowAt (batch.getD i Arr.empty) e.envIndex))
  else
    let idx := envPlayerIndex (batch.getD 1 Arr.empty) e.envId
    let continuous := scanContinuous idx
    let start := if 0 < idx.length then idx.headD 0 else 0
    let stop := if 0 < idx.length then idx.getLastD 0 + 1 else 0
    (List.range batch.length).map (fun i =>
      if e.isPlayerAction.getD i false then
        if continuous then
          .view (sliceRows (batch.getD i Arr.empty) start stop)
        else
          .owned (gatherRows (batch.getD i Arr.empty) idx)
      else
        .row (rowAt (batch.getD i Arr.empty) e.envIndex))

/-- Failures of one driver call.  `notImplemented` models the
`std::runtime_error` thrown by the abstract `Reset`/`Step`/`IsDone` stubs;
`nullActionBatch` models the (crashing, in C++) dereference of a null
`action_batch_` pointer when `ParseAction` runs before any `SetAction`. -/
inductive EnvError where
  | notImplemented (msg : String)
  | nullActionBatch
  deriving Repr, DecidableEq

/-- The environment-specific virtual operations a concrete environment type
overrides.  The driver does not observe the derived class's own state, so the
operations are modelled by their outcome only. -/
structure EnvOps where
  reset : Except EnvError Unit
  step : List RawEntry → Except EnvError Unit
  isDone : Except EnvError Bool

/-- The base-class defaults of `Reset`/`Step`/`IsDone`: each throws a
"not implemented" `std::runtime_error` when invoked. -/
def defaultOps : EnvOps :=
  { reset := .error (.notImplemented "reset not implemented")
    step := fun _ => .error (.notImplemented "step not implemented")
    isDone := .error (.notImplemented "is_done not implemented") }

/-- The update `Env::PreProcess(sbq, order, reset)`: record the order and update the step
counter — `reset` sets it to `0`, otherwise it is incremented by one.  (The
queue pointer `sbq_` is not modelled.) -/
def PreProcess (e : Env) (order : Int) (reset : Bool) : Env :=
  { e with
    order := order
    elapsedStep := if reset then 0 else e.elapsedStep + 1 }

/-- The call `Env::PostProcess()`: fires `slice_.done_write()`, the completion signal of
the output slot.  The signal targets the (external) state-buffer queue, not any
driver field, so on the driver state it is the identity. -/
def PostProcess (e : Env) : Env := e

/-- The driver step `Env::EnvStep(sbq, order, reset)`: `PreProcess`, then either the
environment `Reset` (reset path) or `ParseAction` followed by the environment
`Step` on the parsed action, then `PostProcess`.  A C++ exception from
`Reset`/`Step` propagates while the already-performed member writes persist, so
the model returns the driver state paired with the call's outcome. -/
def EnvStepE (ops : EnvOps) (e : Env) (order : Int) (reset : Bool) :
    Env × Except EnvError Unit :=
  let e1 := PreProcess e order reset
  if reset then
    match ops.reset with
    | .error err => (e1, .error err)
    | .ok _ => (PostProcess e1, .ok ())
  else
    match e1.actionBatch with
    | none => (e1, .error .nullActionBatch)
    | some batch =>
      let e2 := { e1 with rawAction := ParseAction e1 batch }
      match ops.step e2.rawAction with
      | .error err => (e2, .error err)
      | .ok _ => (PostProcess e2, .ok ())

/-- The mandatory state fields stamped by `Env::Allocate`: `done`, the
environment id, the elapsed step count, and the per-player environment-id
column of the reserved slot. -/
structure StateSlot where
  done : Bool
  infoEnvId : Int
  elapsedStep : Int
  playersEnvId : List Int
  deriving Repr, DecidableEq

/-- Modelled from the spec: `StateBufferQueue::Allocate(player_num, order)`
(`state_buffer_queue.h`, not among the provided sources) reserves a
`WritableSlice` sized for `player_num` player rows at the given ordinal.  Only
the per-player environment-id column is relevant here; it starts unstamped
(modelled as zeroes). -/
def sbqAllocatePlayerColumn (playerNum : Nat) : List Int :=
  List.replicate playerNum 0

/-- The stamping loop of `Env::Allocate`:
`for (i = 0; i < player_num; ++i) player_env_id[i] = env_id_;`. -/
def stampPlayerIds (buf : List Int) (envId : Int) (playerNum : Nat) : List Int :=
  (List.range playerNum).foldl (fun b i => b.set i envId) buf

/-- The publication `Env::Allocate(player_num)` (C++ default argument `player_num = 1`):
reserve a slot for `playerNum` rows at the current ordinal and stamp the
mandatory fields — `done` from the `IsDone` query result, `info:env_id` and
`elapsed_step` from the driver, and `env_id_` into every reserved player row.
-/
def Allocate (e : Env) (isDone : Bool) (playerNum : Nat) : StateSlot :=
  { done := isDone
    infoEnvId := e.envId
    elapsedStep := e.elapsedStep
    playersEnvId := stampPlayerIds (sbqAllocatePlayerColumn playerNum) e.envId playerNum }

/-! ## Store-passing embedding of `ParseAction`

To state the frame property (the shared `ActionBatch` is never written), the
demux is re-expressed over an explicit store of arrays.  The store initially
holds exactly the batch's field arrays at addresses `0..k-1`; the gather path's
`Array arr(action_specs_[i])` allocates a fresh array at the end of the store
and its `Assign` loop writes only through that address.  All other branches
build aliasing views and perform no write. -/

/-- Read the array at a store address (UB default for a dangling address). -/
def storeRead (st : List Arr) (addr : Nat) : Arr :=
  st.getD addr Arr.empty

/-- The write `arr[j].Assign(row)`: replace row `j` of the array at `addr`. -/
def storeWriteRow (st : List Arr) (addr j : Nat) (r : Row) : List Arr :=
  st.set addr ⟨(storeRead st addr).rows.set j r⟩

/-- The gather loop of `ParseAction`:
`for (j = 0; j < player_num; ++j) arr[j].Assign(batchField[idx[j]]);`,
with `dst` the fresh buffer's address and `src` the batch field's address. -/
def gatherLoopSt (st : List Arr) (dst src : Nat) (idx : List Nat) : List Arr :=
  idx.enum.foldl
    (fun s ji => storeWriteRow s dst ji.1 (rowAt (storeRead s src) ji.2))
    st

/-- One iteration of the multi-player field loop, store effects only: the
scattered case allocates a fresh `player_num`-row buffer (address
`st.length`) and gathers into it; the contiguous case and per-environment
fields only build views and leave the store alone. -/
def parseFieldSt (e : Env) (idx : List Nat) (continuous : Bool)
    (st : List Arr) (i : Nat) : List Arr :=
  if e.isPlayerAction.getD i false then
    if continuous then
      st
    else
      let dst := st.length
      let st1 := st ++ [⟨List.replicate idx.length []⟩]
      gatherLoopSt st1 dst i idx
  else
    st

/-- The demux `Env::ParseAction()`, store effects: the final store after the call, where
the initial store is exactly the attached batch (field `i` at address `i`).
The single-player path performs no write at all; the multi-player path runs
`parseFieldSt` over the fields in declaration order. -/
def ParseActionSt (e : Env) (st : List Arr) : List Arr :=
  if e.isSinglePlayer then
    st
  else
    let idx := envPlayerIndex (storeRead st 1) e.envId
    let continuous := scanContinuous idx
    (List.range st.length).foldl (parseFieldSt e idx continuous) st

example :
    envPlayerIndex ⟨[[0], [0], [1], [2], [2]]⟩ 0 = [0, 1] := by decide

example :
    envPlayerIndex ⟨[[0], [1], [0], [2], [2]]⟩ 0 = [0, 2] := by decide

example : scanContinuous [0, 1] = true := by decide

example : scanContinuous [0, 2] = false := by decide

example : scanContinuous [] = false := by decide

/-! ## Supporting lemmas -/

/-- The player-id scan selects exactly the in-range rows stamped with the
driver's environment id. -/
theorem envPlayerIndex_mem (a : Arr) (eid : Int) (i : Nat) :
    i ∈ envPlayerIndex a eid ↔ i < a.rows.length ∧ playerIdAt a i = eid := by
  simp [envPlayerIndex]

/-- The scan result is strictly ascending (original batch order). -/
theorem envPlayerIndex_sorted (a : Arr) (eid : Int) :
    List.Pairwise (· < ·) (envPlayerIndex a eid) :=
  (List.pairwise_lt_range _).filter _

/-- A strictly ascending list spreads out: its last entry is at least its head
plus its length minus one. -/
theorem sorted_head_add_length_le :
    ∀ (l : List Nat), List.Pairwise (· < ·) l → l ≠ [] →
      l.headD 0 + l.length ≤ l.getLastD 0 + 1 := by
  intro l
  induction l with
  | nil => intro _ h; exact absurd rfl h
  | cons a t ih =>
    intro hp _
    cases t with
    | nil => simp
    | cons b t2 =>
      have hab : a < b := (List.pairwise_cons.mp hp).1 b (by simp)
      have htp : List.Pairwise (· < ·) (b :: t2) := (List.pairwise_cons.mp hp).2
      have hb := ih htp (by simp)
      have hlast : (a :: b :: t2).getLastD 0 = (b :: t2).getLastD 0 := by
        rw [List.getLastD_eq_getLast?, List.getLastD_eq_getLast?,
          List.getLast?_cons_cons]
      simp only [List.headD_cons, List.length_cons] at hb ⊢
      omega

/-- A strictly ascending list whose span equals its length is exactly the
contiguous run starting at its head. -/
theorem sorted_eq_range' :
    ∀ (l : List Nat), List.Pairwise (· < ·) l →
      l.getLastD 0 + 1 = l.headD 0 + l.length →
      l = List.range' (l.headD 0) l.length := by
  intro l
  induction l with
  | nil => intro _ _; rfl
  | cons a t ih =>
    intro hp hlen
    cases t with
    | nil => rfl
    | cons b t2 =>
      have hab : a < b := (List.pairwise_cons.mp hp).1 b (by simp)
      have htp : List.Pairwise (· < ·) (b :: t2) := (List.pairwise_cons.mp hp).2
      have hspread := sorted_head_add_length_le (b :: t2) htp (by simp)
      have hlast : (a :: b :: t2).getLastD 0 = (b :: t2).getLastD 0 := by
        rw [List.getLastD_eq_getLast?, List.getLastD_eq_getLast?,
          List.getLast?_cons_cons]
      simp only [List.headD_cons, List.length_cons] at hlen hspread ⊢
      have hb1 : b = a + 1 := by omega
      have hL : (b :: t2).getLastD 0 + 1 = (b :: t2).headD 0 + (b :: t2).length := by
        simp only [List.headD_cons, List.length_cons]
        omega
      have iht := ih htp hL
      simp only [List.headD_cons, List.length_cons] at iht
      rw [List.range'_succ, ← hb1, ← iht]

/-- Head of a nonempty contiguous run. -/
theorem headD_range' (s n : Nat) (h : 0 < n) : (List.range' s n).headD 0 = s := by
  cases n with
  | zero => omega
  | succ m => rw [List.range'_succ]; rfl

/-- Last entry of a nonempty contiguous run. -/
theorem getLastD_range' (s n : Nat) (h : 0 < n) :
    (List.range' s n).getLastD 0 = s + n - 1 := by
  cases n with
  | zero => omega
  | succ m =>
    rw [List.range'_concat, List.getLastD_eq_getLast?, List.getLast?_concat]
    simp

/-- The code's contiguity test, arithmetically. -/
theorem scanContinuous_eq_true_iff (l : List Nat) :
    scanContinuous l = true ↔
      0 < l.length ∧ l.getLastD 0 + 1 = l.headD 0 + l.length := by
  unfold scanContinuous
  by_cases h : 0 < l.length
  · simp only [h, if_true, beq_iff_eq, true_and]
    omega
  · simp [h]

/-- The contiguity test accepts every nonempty contiguous run. -/
theorem scanContinuous_range' (s n : Nat) (h : 0 < n) :
    scanContinuous (List.range' s n) = true := by
  rw [scanContinuous_eq_true_iff, List.length_range', headD_range' s n h,
    getLastD_range' s n h]
  omega

/-- Row lookup agrees with `getElem` in bounds. -/
theorem rowAt_eq_getElem (a : Arr) (i : Nat) (h : i < a.rows.length) :
    rowAt a i = a.rows[i] := by
  simp [rowAt, List.getD_eq_getElem?_getD, List.getElem?_eq_getElem h]

/-- Over a contiguous in-bounds run, the zero-copy slice and the per-row
gather read exactly the same rows. -/
theorem sliceRows_eq_gatherRows (a : Arr) (s n : Nat)
    (h : s + n ≤ a.rows.length) :
    sliceRows a s (s + n) = gatherRows a (List.range' s n) := by
  induction n generalizing s with
  | zero => simp [sliceRows, gatherRows]
  | succ m ih =>
    have hs : s < a.rows.length := by omega
    have hdrop : a.rows.drop s = a.rows[s] :: a.rows.drop (s + 1) :=
      List.drop_eq_getElem_cons hs
    rw [List.range'_succ]
    show (a.rows.drop s).take (s + (m + 1) - s) =
      rowAt a s :: gatherRows a (List.range' (s + 1) m)
    rw [hdrop, show s + (m + 1) - s = m + 1 from by omega, List.take_succ_cons,
      rowAt_eq_getElem a s hs]
    have h2 := ih (s + 1) (by omega)
    simp only [sliceRows, show s + 1 + m - (s + 1) = m from by omega] at h2
    exact congrArg (a.rows[s] :: ·) h2

/-! ## Claim theorems -/

/-- C1: for every multi-player environment driver and attached batch, the row
indices selected by `ParseAction`'s player-id scan over the second declared
action field are exactly the rows whose stamped environment id equals the
driver's `env_id_`, listed in ascending (original batch) order — including the
zero-match case, where the characterisation forces the empty selection. -/
theorem c1_player_scan_exact (e : Env) (batch : List Arr) :
    (∀ i, i ∈ envPlayerIndex (batch.getD 1 Arr.empty) e.envId ↔
      i < (batch.getD 1 Arr.empty).rows.length ∧
        playerIdAt (batch.getD 1 Arr.empty) i = e.envId)
    ∧ List.Pairwise (· < ·) (envPlayerIndex (batch.getD 1 Arr.empty) e.envId) :=
  ⟨envPlayerIndex_mem (batch.getD 1 Arr.empty) e.envId,
    envPlayerIndex_sorted (batch.getD 1 Arr.empty) e.envId⟩

/-- C1 witness: on the id column `[0,0,1,2,2]` with `env_id = 2`, the scan
characterisation yields membership of row 4 and sorted order. -/
theorem c1_player_scan_exact_witness :
    4 ∈ envPlayerIndex ⟨[[0], [0], [1], [2], [2]]⟩ 2
    ∧ List.Pairwise (· < ·) (envPlayerIndex ⟨[[0], [0], [1], [2], [2]]⟩ 2) := by
  have h := c1_player_scan_exact (mkEnv ⟨3, 0, [⟨[-1, 1]⟩, ⟨[-1]⟩]⟩ 2)
    [⟨[[9], [9], [9], [9], [9]]⟩, ⟨[[0], [0], [1], [2], [2]]⟩]
  exact ⟨(h.1 4).mpr (by decide), h.2⟩

/-- C2: in `ParseAction`'s multi-player path, the zero-copy "continuous" fast
path is chosen if and only if the matched index set is a single contiguous run
whose length equals the match count — equivalently, iff the match count is
positive and `idx[player_num-1] + 1 == idx[0] + player_num` — and never when
there are zero matches. -/
theorem c2_contiguity_exact (e : Env) (batch : List Arr) :
    (scanContinuous (envPlayerIndex (batch.getD 1 Arr.empty) e.envId) = true ↔
      ∃ s n, 0 < n ∧
        envPlayerIndex (batch.getD 1 Arr.empty) e.envId = List.range' s n)
    ∧ (scanContinuous (envPlayerIndex (batch.getD 1 Arr.empty) e.envId) = true ↔
      0 < (envPlayerIndex (batch.getD 1 Arr.empty) e.envId).length ∧
        (envPlayerIndex (batch.getD 1 Arr.empty) e.envId).getLastD 0 + 1 =
          (envPlayerIndex (batch.getD 1 Arr.empty) e.envId).headD 0 +
            (envPlayerIndex (batch.getD 1 Arr.empty) e.envId).length) := by
  set l := envPlayerIndex (batch.getD 1 Arr.empty) e.envId with hl
  have hsorted : List.Pairwise (· < ·) l := envPlayerIndex_sorted _ _
  refine ⟨⟨?_, ?_⟩, scanContinuous_eq_true_iff l⟩
  · intro hc
    obtain ⟨hpos, heq⟩ := (scanContinuous_eq_true_iff l).mp hc
    exact ⟨l.headD 0, l.length, hpos, sorted_eq_range' l hsorted heq⟩
  · rintro ⟨s, n, hn, hr⟩
    rw [hr]
    exact scanContinuous_range' s n hn

/-- C2 witness: with id column `[0,1,0,2,2]` and `env_id = 0` the matches
`{0,2}` are scattered, so the fast path is rejected. -/
theorem c2_contiguity_exact_witness :
    scanContinuous (envPlayerIndex ⟨[[0], [1], [0], [2], [2]]⟩ 0) = false := by
  have h := (c2_contiguity_exact (mkEnv ⟨3, 0, [⟨[-1, 1]⟩, ⟨[-1]⟩]⟩ 0)
    [⟨[[9], [9], [9], [9], [9]]⟩, ⟨[[0], [1], [0], [2], [2]]⟩]).2
  revert h
  decide

/-- C3: whenever the matched indices are contiguous (slice path taken), the
raw-action entry the zero-copy slice path produces for a per-player field has
element-for-element the same content as the per-row gather path would produce
for that field from the same batch and the same matched index list. -/
theorem c3_slice_path_refines_gather (e : Env) (batch : List Arr) (i : Nat)
    (hm : e.isSinglePlayer = false)
    (hp : e.isPlayerAction.getD i false = true)
    (hi : i < batch.length)
    (hc : scanContinuous (envPlayerIndex (batch.getD 1 Arr.empty) e.envId) = true)
    (hb : (envPlayerIndex (batch.getD 1 Arr.empty) e.envId).getLastD 0 <
      (batch.getD i Arr.empty).rows.length) :
    (ParseAction e batch)[i]? =
      some (.view (gatherRows (batch.getD i Arr.empty)
        (envPlayerIndex (batch.getD 1 Arr.empty) e.envId))) := by
  have hsorted := envPlayerIndex_sorted (batch.getD 1 Arr.empty) e.envId
  obtain ⟨hpos, heq⟩ :=
    (scanContinuous_eq_true_iff
      (envPlayerIndex (batch.getD 1 Arr.empty) e.envId)).mp hc
  set l := envPlayerIndex (batch.getD 1 Arr.empty) e.envId with hl
  have hrange := sorted_eq_range' l hsorted heq
  have hcontent :
      sliceRows (batch.getD i Arr.empty) (l.headD 0) (l.getLastD 0 + 1) =
        gatherRows (batch.getD i Arr.empty) l := by
    rw [show l.getLastD 0 + 1 = l.headD 0 + l.length from heq]
    rw [sliceRows_eq_gatherRows (batch.getD i Arr.empty) (l.headD 0) l.length
      (by omega), ← hrange]
  simp only [ParseAction, hm, Bool.false_eq_true, if_false, ← hl, hc, if_true,
    hpos, List.getElem?_map, List.getElem?_range, hi, Option.map_some,
    Option.map_some', hp]
  rw [hcontent]

/-- C3 witness: three environments, ids `[0,0,1,2,2]`, driver `env_id = 0`:
matches `{0,1}` are contiguous and the slice entry for field 0 carries exactly
the rows the gather path would copy. -/
theorem c3_slice_path_refines_gather_witness :
    (ParseAction (mkEnv ⟨2, 0, [⟨[-1, 1]⟩, ⟨[-1]⟩]⟩ 0)
      [⟨[[10], [20], [30], [40], [50]]⟩, ⟨[[0], [0], [1], [2], [2]]⟩])[0]? =
      some (.view (gatherRows ⟨[[10], [20], [30], [40], [50]]⟩
        (envPlayerIndex ⟨[[0], [0], [1], [2], [2]]⟩ 0))) :=
  c3_slice_path_refines_gather
    (mkEnv ⟨2, 0, [⟨[-1, 1]⟩, ⟨[-1]⟩]⟩ 0)
    [⟨[[10], [20], [30], [40], [50]]⟩, ⟨[[0], [0], [1], [2], [2]]⟩]
    0 (by decide) (by decide) (by decide) (by decide) (by decide)

/-- C4: in the multi-player path with zero matching rows, `ParseAction` still
produces a full result (one entry per field) and every per-player field entry
is an empty, zero-row gathered buffer — the zero-player round is a valid
outcome, not a failure. -/
theorem c4_zero_player_round_valid (e : Env) (batch : List Arr) (i : Nat)
    (hm : e.isSinglePlayer = false)
    (h0 : envPlayerIndex (batch.getD 1 Arr.empty) e.envId = [])
    (hi : i < batch.length)
    (hp : e.isPlayerAction.getD i false = true) :
    (ParseAction e batch).length = batch.length
    ∧ (ParseAction e batch)[i]? = some (.owned []) := by
  constructor
  · simp only [ParseAction, hm, Bool.false_eq_true, if_false, List.length_map,
      List.length_range]
  · simp only [ParseAction, hm, Bool.false_eq_true, if_false, h0,
      List.getElem?_map, List.getElem?_range, hi, Option.map_some,
      Option.map_some', hp, if_true]
    simp [scanContinuous, gatherRows]

/-- C4 witness: driver `env_id = 7` finds no match in the id column
`[0,0,1,2,2]`; the per-player entry at field 0 is the empty buffer and both
fields are still delivered. -/
theorem c4_zero_player_round_valid_witness :
    (ParseAction (mkEnv ⟨2, 0, [⟨[-1, 1]⟩, ⟨[-1]⟩]⟩ 7)
      [⟨[[10], [20], [30], [40], [50]]⟩, ⟨[[0], [0], [1], [2], [2]]⟩]).length = 2
    ∧ (ParseAction (mkEnv ⟨2, 0, [⟨[-1, 1]⟩, ⟨[-1]⟩]⟩ 7)
      [⟨[[10], [20], [30], [40], [50]]⟩, ⟨[[0], [0], [1], [2], [2]]⟩])[0]? =
      some (.owned []) := by
  have h := c4_zero_player_round_valid
    (mkEnv ⟨2, 0, [⟨[-1, 1]⟩, ⟨[-1]⟩]⟩ 7)
    [⟨[[10], [20], [30], [40], [50]]⟩, ⟨[[0], [0], [1], [2], [2]]⟩]
    0 (by decide) (by decide) (by decide) (by decide)
  exact ⟨h.1.trans (by decide), h.2⟩

/-- C5: every `ParseAction` call yields one raw-action entry per declared
field, in declaration order; per-environment fields are always the single row
at the driver's batch index (either player mode); and in single-player mode
each per-player field is the length-1 zero-copy slice at that index. -/
theorem c5_raw_action_shape (e : Env) (batch : List Arr) :
    (ParseAction e batch).length = batch.length
    ∧ (∀ i, i < batch.length → e.isPlayerAction.getD i false = false →
        (ParseAction e batch)[i]? =
          some (.row (rowAt (batch.getD i Arr.empty) e.envIndex)))
    ∧ (e.isSinglePlayer = true → ∀ i, i < batch.length →
        e.isPlayerAction.getD i false = true →
        e.envIndex < (batch.getD i Arr.empty).rows.length →
        (ParseAction e batch)[i]? =
          some (.view [rowAt (batch.getD i Arr.empty) e.envIndex])) := by
  refine ⟨?_, ?_, ?_⟩
  · cases hs : e.isSinglePlayer <;> simp [ParseAction, hs]
  · intro i hi hp
    rw [List.getD_eq_getElem?_getD] at hp
    cases hs : e.isSinglePlayer <;>
      simp [ParseAction, hs, List.getElem?_map, List.getElem?_range, hi, hp,
        List.getD_eq_getElem?_getD]
  · intro hs i hi hp hbound
    rw [List.getD_eq_getElem?_getD] at hp
    have h1 : sliceRows (batch.getD i Arr.empty) e.envIndex (e.envIndex + 1) =
        [rowAt (batch.getD i Arr.empty) e.envIndex] := by
      rw [sliceRows_eq_gatherRows (batch.getD i Arr.empty) e.envIndex 1
        (by omega)]
      simp [gatherRows, List.range']
    simp only [List.getD_eq_getElem?_getD, List.getElem?_eq_getElem hi,
      Option.getD_some] at h1
    simp [ParseAction, hs, List.getElem?_map, List.getElem?_range, hi, hp, h1,
      List.getD_eq_getElem?_getD]

/-- C5 witness: a single-player driver at batch index 1 over a two-field batch
gets a length-1 slice `[[8]]` for the per-player field and the single row
`[3,4]` for the per-environment field. -/
theorem c5_raw_action_shape_witness :
    (ParseAction (SetAction (mkEnv ⟨1, 0, [⟨[-1, 1]⟩, ⟨[2]⟩]⟩ 0)
        [⟨[[7], [8], [9]]⟩, ⟨[[1, 2], [3, 4], [5, 6]]⟩] 1)
      [⟨[[7], [8], [9]]⟩, ⟨[[1, 2], [3, 4], [5, 6]]⟩]).length = 2
    ∧ (ParseAction (SetAction (mkEnv ⟨1, 0, [⟨[-1, 1]⟩, ⟨[2]⟩]⟩ 0)
        [⟨[[7], [8], [9]]⟩, ⟨[[1, 2], [3, 4], [5, 6]]⟩] 1)
      [⟨[[7], [8], [9]]⟩, ⟨[[1, 2], [3, 4], [5, 6]]⟩])[1]? = some (.row [3, 4])
    ∧ (ParseAction (SetAction (mkEnv ⟨1, 0, [⟨[-1, 1]⟩, ⟨[2]⟩]⟩ 0)
        [⟨[[7], [8], [9]]⟩, ⟨[[1, 2], [3, 4], [5, 6]]⟩] 1)
      [⟨[[7], [8], [9]]⟩, ⟨[[1, 2], [3, 4], [5, 6]]⟩])[0]? =
        some (.view [[8]]) := by
  have h := c5_raw_action_shape
    (SetAction (mkEnv ⟨1, 0, [⟨[-1, 1]⟩, ⟨[2]⟩]⟩ 0)
      [⟨[[7], [8], [9]]⟩, ⟨[[1, 2], [3, 4], [5, 6]]⟩] 1)
    [⟨[[7], [8], [9]]⟩, ⟨[[1, 2], [3, 4], [5, 6]]⟩]
  refine ⟨h.1.trans (by decide), ?_, ?_⟩
  · exact (h.2.1 1 (by decide) (by decide)).trans (by decide)
  · exact (h.2.2 (by decide) 0 (by decide) (by decide) (by decide)).trans
      (by decide)

/-- The driver state after `EnvStep` always carries the `PreProcess`-updated
counter: `0` on reset, previous value plus one otherwise, whatever the
environment-specific operations do or fail to do. -/
theorem EnvStepE_fst_elapsedStep (ops : EnvOps) (e : Env) (o : Int) (r : Bool) :
    (EnvStepE ops e o r).1.elapsedStep = if r then 0 else e.elapsedStep + 1 := by
  unfold EnvStepE
  dsimp only
  split
  · split <;> simp_all [PreProcess, PostProcess]
  · split
    · simp_all [PreProcess]
    · split <;> simp_all [PreProcess, PostProcess]

/-- C6: the step counter of a freshly constructed driver is `-1` (never
stepped); `EnvStep` with `reset = true` sets it to `0`; `EnvStep` with
`reset = false` increments it by exactly one; and a later reset returns it to
`0`. -/
theorem c6_step_counter_law (spec : EnvSpec) (envId : Int) (ops : EnvOps)
    (e : Env) (o o2 : Int) :
    (mkEnv spec envId).elapsedStep = -1
    ∧ (EnvStepE ops e o true).1.elapsedStep = 0
    ∧ (EnvStepE ops e o false).1.elapsedStep = e.elapsedStep + 1
    ∧ (EnvStepE ops (EnvStepE ops e o false).1 o2 true).1.elapsedStep = 0 := by
  refine ⟨rfl, ?_, ?_, ?_⟩ <;> simp [EnvStepE_fst_elapsedStep]

/-- C9: without a concrete override, each of `Reset`, `Step` and `IsDone` is
the throwing stub, failing with its "not implemented" error exactly when
invoked — e.g. surfacing through `EnvStep` on either path — while construction
alone (`mkEnv`, which consults no environment operation) completes and yields
the sentinel-initialised driver. -/
theorem c9_not_implemented_defaults (spec : EnvSpec) (envId : Int) (e : Env)
    (batch : List Arr) (envIndex : Nat) (o : Int) (a : List RawEntry) :
    defaultOps.reset = .error (.notImplemented "reset not implemented")
    ∧ defaultOps.step a = .error (.notImplemented "step not implemented")
    ∧ defaultOps.isDone = .error (.notImplemented "is_done not implemented")
    ∧ (EnvStepE defaultOps e o true).2 =
        .error (.notImplemented "reset not implemented")
    ∧ (EnvStepE defaultOps (SetAction e batch envIndex) o false).2 =
        .error (.notImplemented "step not implemented")
    ∧ (mkEnv spec envId).elapsedStep = -1 := by
  refine ⟨rfl, rfl, rfl, ?_, ?_, rfl⟩
  · simp [EnvStepE, defaultOps]
  · simp [EnvStepE, defaultOps, SetAction, PreProcess]

/-- C10: the reset path of `EnvStep` never consults the attached action batch
and never runs `ParseAction` or `Step`: its driver effect is exactly the
`PreProcess` counter/order update (completion signalling touches only the
output slot), its outcome is exactly the environment `Reset`'s, and the call
behaves identically when no `SetAction` ever attached a batch. -/
theorem c10_reset_path_independent (ops : EnvOps) (e : Env) (o : Int) :
    (EnvStepE ops e o true).1 = PreProcess e o true
    ∧ (EnvStepE ops e o true).2 = ops.reset
    ∧ (EnvStepE ops e o true).1.rawAction = e.rawAction
    ∧ EnvStepE ops { e with actionBatch := none } o true =
        ({ (EnvStepE ops e o true).1 with actionBatch := none },
          (EnvStepE ops e o true).2) := by
  have h1 : ∀ (x : Env), (EnvStepE ops x o true).1 = PreProcess x o true := by
    intro x
    unfold EnvStepE
    cases ops.reset <;> simp [PostProcess]
  have h2 : ∀ (x : Env), (EnvStepE ops x o true).2 = ops.reset := by
    intro x
    unfold EnvStepE
    cases hr : ops.reset <;> simp [hr, PostProcess]
  refine ⟨h1 e, h2 e, ?_, ?_⟩
  · rw [h1 e]; rfl
  · have hA := h1 { e with actionBatch := none }
    have hB := h2 { e with actionBatch := none }
    rw [Prod.ext_iff]
    constructor
    · rw [hA, h1 e]
      rfl
    · rw [hB, h2 e]

/-- The stamping loop writes one more cell per iteration. -/
theorem stampPlayerIds_succ (buf : List Int) (v : Int) (n : Nat) :
    stampPlayerIds buf v (n + 1) = (stampPlayerIds buf v n).set n v := by
  unfold stampPlayerIds
  rw [List.range_succ, List.foldl_append]
  rfl

/-- The stamping loop never resizes the slot's player column. -/
theorem stampPlayerIds_length (buf : List Int) (v : Int) (n : Nat) :
    (stampPlayerIds buf v n).length = buf.length := by
  induction n with
  | zero => rfl
  | succ m ih => rw [stampPlayerIds_succ, List.length_set, ih]

/-- After the stamping loop, every written cell holds the environment id. -/
theorem stampPlayerIds_getElem? (buf : List Int) (v : Int) (n i : Nat)
    (hn : n ≤ buf.length) (hi : i < n) :
    (stampPlayerIds buf v n)[i]? = some v := by
  induction n with
  | zero => omega
  | succ m ih =>
    rw [stampPlayerIds_succ]
    by_cases h : i = m
    · subst h
      rw [List.getElem?_set_self]
      · rw [stampPlayerIds_length]
        omega
    · rw [List.getElem?_set_ne (by omega)]
      exact ih (by omega) (by omega)

/-- C7: `Allocate(player_num)` reserves a slot sized for `player_num` player
rows (`player_num = 1` being the C++ default argument) and stamps the
mandatory fields: `done` from the `IsDone` query, `info:env_id` with the
driver's id, `elapsed_step` with the current counter, and the environment id
into every one of the `player_num` reserved player rows. -/
theorem c7_allocate_stamps (e : Env) (isDone : Bool) (playerNum : Nat) :
    (Allocate e isDone playerNum).done = isDone
    ∧ (Allocate e isDone playerNum).infoEnvId = e.envId
    ∧ (Allocate e isDone playerNum).elapsedStep = e.elapsedStep
    ∧ (Allocate e isDone playerNum).playersEnvId.length = playerNum
    ∧ (∀ i, i < playerNum →
        (Allocate e isDone playerNum).playersEnvId[i]? = some e.envId)
    ∧ (Allocate e isDone 1).playersEnvId = [e.envId] := by
  refine ⟨rfl, rfl, rfl, ?_, ?_, ?_⟩
  · simp [Allocate, stampPlayerIds_length, sbqAllocatePlayerColumn]
  · intro i hi
    exact stampPlayerIds_getElem? (sbqAllocatePlayerColumn playerNum) e.envId
      playerNum i (by simp [sbqAllocatePlayerColumn]) hi
  · simp [Allocate, sbqAllocatePlayerColumn, stampPlayerIds, List.range_succ]

/-- C7 witness: a three-player allocation for driver id 4 with `done = true`
and counter 11 stamps every reserved player row with 4. -/
theorem c7_allocate_stamps_witness :
    (Allocate { mkEnv ⟨8, 0, []⟩ 4 with elapsedStep := 11 } true 3).done = true
    ∧ (Allocate { mkEnv ⟨8, 0, []⟩ 4 with elapsedStep := 11 } true
        3).infoEnvId = 4
    ∧ (Allocate { mkEnv ⟨8, 0, []⟩ 4 with elapsedStep := 11 } true
        3).elapsedStep = 11
    ∧ (Allocate { mkEnv ⟨8, 0, []⟩ 4 with elapsedStep := 11 } true
        3).playersEnvId.length = 3
    ∧ (Allocate { mkEnv ⟨8, 0, []⟩ 4 with elapsedStep := 11 } true
        3).playersEnvId[2]? = some 4 := by
  have h := c7_allocate_stamps
    { mkEnv ⟨8, 0, []⟩ 4 with elapsedStep := 11 } true 3
  exact ⟨h.1, h.2.1, h.2.2.1, h.2.2.2.1, h.2.2.2.2.1 2 (by decide)⟩

/-- A row write leaves the store's shape unchanged. -/
theorem storeWriteRow_length (st : List Arr) (addr j : Nat) (r : Row) :
    (storeWriteRow st addr j r).length = st.length := by
  simp [storeWriteRow]

/-- A row write touches no store address other than its target. -/
theorem storeWriteRow_getElem?_ne (st : List Arr) (addr j : Nat) (r : Row)
    (a : Nat) (h : a ≠ addr) :
    (storeWriteRow st addr j r)[a]? = st[a]? := by
  unfold storeWriteRow
  rw [List.getElem?_set_ne (by omega)]

/-- The gather loop writes only through its destination address. -/
theorem gatherFold_getElem?_ne (dst src a : Nat) (h : a ≠ dst) :
    ∀ (ps : List (Nat × Nat)) (st : List Arr),
      (ps.foldl
        (fun s ji => storeWriteRow s dst ji.1 (rowAt (storeRead s src) ji.2))
        st)[a]? = st[a]? := by
  intro ps
  induction ps with
  | nil => intro st; rfl
  | cons p ps ih =>
    intro st
    rw [List.foldl_cons, ih, storeWriteRow_getElem?_ne _ _ _ _ _ h]

/-- The gather loop never resizes the store. -/
theorem gatherFold_length (dst src : Nat) :
    ∀ (ps : List (Nat × Nat)) (st : List Arr),
      (ps.foldl
        (fun s ji => storeWriteRow s dst ji.1 (rowAt (storeRead s src) ji.2))
        st).length = st.length := by
  intro ps
  induction ps with
  | nil => intro st; rfl
  | cons p ps ih =>
    intro st
    rw [List.foldl_cons, ih, storeWriteRow_length]

/-- One field of the demux loop preserves every store address below the batch
size `k` and never shrinks the store below `k`. -/
theorem parseFieldSt_preserves (e : Env) (idx : List Nat) (cont : Bool)
    (k : Nat) (st : List Arr) (i : Nat) (hk : k ≤ st.length) :
    (∀ a, a < k → (parseFieldSt e idx cont st i)[a]? = st[a]?)
    ∧ k ≤ (parseFieldSt e idx cont st i).length := by
  unfold parseFieldSt
  split
  · split
    · exact ⟨fun a _ => rfl, hk⟩
    · constructor
      · intro a ha
        show (gatherLoopSt (st ++ [⟨List.replicate idx.length []⟩])
          st.length i idx)[a]? = st[a]?
        unfold gatherLoopSt
        rw [gatherFold_getElem?_ne st.length i a (by omega)]
        exact List.getElem?_append_left (by omega)
      · show k ≤ (gatherLoopSt (st ++ [⟨List.replicate idx.length []⟩])
          st.length i idx).length
        unfold gatherLoopSt
        rw [gatherFold_length, List.length_append]
        simp only [List.length_singleton]
        omega
  · exact ⟨fun a _ => rfl, hk⟩

/-- Folding the demux over any field sequence preserves every store address
below the batch size. -/
theorem parseFold_preserves (e : Env) (idx : List Nat) (cont : Bool) (k : Nat) :
    ∀ (fields : List Nat) (st : List Arr), k ≤ st.length →
      (∀ a, a < k →
        (fields.foldl (parseFieldSt e idx cont) st)[a]? = st[a]?)
      ∧ k ≤ (fields.foldl (parseFieldSt e idx cont) st).length := by
  intro fields
  induction fields with
  | nil => intro st hk; exact ⟨fun a _ => rfl, hk⟩
  | cons f fs ih =>
    intro st hk
    obtain ⟨h1, h2⟩ := parseFieldSt_preserves e idx cont k st f hk
    obtain ⟨h3, h4⟩ := ih (parseFieldSt e idx cont st f) h2
    refine ⟨?_, h4⟩
    intro a ha
    rw [List.foldl_cons, h3 a ha, h1 a ha]

/-- C8: `ParseAction` never mutates the shared `ActionBatch`: with the store
initially holding exactly the batch's field arrays, every batch address reads
back unchanged after the call — on the single-player path (no writes at all)
and on the multi-player path, whose gather writes go only to the freshly
allocated buffers beyond the batch. -/
theorem c8_parse_action_frame (e : Env) (st : List Arr) (a : Nat)
    (ha : a < st.length) :
    (ParseActionSt e st)[a]? = st[a]? := by
  unfold ParseActionSt
  split
  · rfl
  · exact (parseFold_preserves e
      (envPlayerIndex (storeRead st 1) e.envId)
      (scanContinuous (envPlayerIndex (storeRead st 1) e.envId))
      st.length (List.range st.length) st (le_refl _)).1 a ha

/-- C8 witness: a scattered two-field batch (ids `[0,1,0]`, driver id 0)
forces the gather path; both batch fields read back unchanged. -/
theorem c8_parse_action_frame_witness :
    (ParseActionSt (mkEnv ⟨2, 0, [⟨[-1, 1]⟩, ⟨[-1]⟩]⟩ 0)
      [⟨[[10], [20], [30]]⟩, ⟨[[0], [1], [0]]⟩])[0]? =
      some ⟨[[10], [20], [30]]⟩ := by
  have h := c8_parse_action_frame (mkEnv ⟨2, 0, [⟨[-1, 1]⟩, ⟨[-1]⟩]⟩ 0)
    [⟨[[10], [20], [30]]⟩, ⟨[[0], [1], [0]]⟩] 0 (by decide)
  exact h.trans (by decide)
